import Mathlib

/-!
Verification development for the ZappierV2 peer-to-peer chat repository.

The definitions below are shallow embeddings of the TypeScript source:
  - the signaling relay in src/server/routes.ts (message handler and close
    handler of the WebSocket connection callback inside registerRoutes);
  - the WebRTCManager class in src/client/src/lib (connectToPeer,
    setupConnection, sendMessage, attemptReconnect, handlePeerData);
  - the contact-info global handler in
    src/client/src/lib/peer-connection-context.tsx (initializePeerConnection);
  - the file transfer send and receive paths in the ChatWindow component
    (handleFileChange and the file branch of the onMessage handler installed
    by setupPeerConnection).

JavaScript Map objects are embedded as association lists with the exact
get / set / delete semantics (set replaces in place, preserving insertion
order; delete removes the entry).  Byte buffers are `List Nat`.
-/

/-- Association-list embedding of JavaScript `Map.get`. -/
def mget {κ : Type} [DecidableEq κ] {α : Type} : List (κ × α) → κ → Option α
  | [], _ => none
  | (k, v) :: rest, key => if k = key then some v else mget rest key

/-- Association-list embedding of JavaScript `Map.set`: replaces the entry in
place when the key is present, otherwise appends it. -/
def mset {κ : Type} [DecidableEq κ] {α : Type} : List (κ × α) → κ → α → List (κ × α)
  | [], key, v => [(key, v)]
  | (k, w) :: rest, key, v =>
      if k = key then (k, v) :: rest else (k, w) :: mset rest key v

/-- Association-list embedding of JavaScript `Map.delete`. -/
def mdelete {κ : Type} [DecidableEq κ] {α : Type} : List (κ × α) → κ → List (κ × α)
  | [], _ => []
  | (k, v) :: rest, key =>
      if k = key then mdelete rest key else (k, v) :: mdelete rest key

/-- Keys of the map are pairwise distinct (always true for a JS `Map`). -/
def keysNodup {κ : Type} {α : Type} (m : List (κ × α)) : Prop :=
  (m.map Prod.fst).Nodup

instance keysNodupDecidable {κ α : Type} [DecidableEq κ] (m : List (κ × α)) :
    Decidable (keysNodup m) := by
  unfold keysNodup
  infer_instance

/-!
Relay model: src/server/routes.ts.

A live WebSocket is identified by a `Nat` socket id; `closedSocks` records the
sockets whose close event has fired, so `sockOpen` plays the role of
`ws.readyState === WebSocket.OPEN`.  `cur` models the per-connection closure
variable `currentPeerId` (one binding per socket).
-/

/-- Entry of the server-side `peers` map (interface PeerConnection). -/
structure RPeer where
  peerId : String
  sock : Nat
  displayName : String
deriving DecidableEq

/-- Frames sent from a client to the relay (the `message.type` switch). -/
inductive ClientMsg where
  | register (peerId displayName : String)
  | signal (target sender sig : String)
  | offer (target sender offerSdp callType : String)
  | answer (target sender answerSdp : String)
  | iceCandidate (target sender candidate : String)
  | statusUpdate (status : String)
  | ping
deriving DecidableEq

/-- Frames sent from the relay back to clients. -/
inductive ServerMsg where
  | registered (peerId : String)
  | signal (sender sig : String)
  | offer (sender offerSdp callType : String)
  | answer (sender answerSdp : String)
  | iceCandidate (sender candidate : String)
  | peerStatus (peerId : Option String) (status : String) (timestamp : Nat)
  | pong
  | error (message : String)
deriving DecidableEq

/-- State of the relay: the `peers` map, the per-socket `currentPeerId`
closure variables, and the set of sockets that have closed. -/
structure RelayState where
  peers : List (String × RPeer)
  cur : List (Nat × String)
  closedSocks : List Nat
deriving DecidableEq

/-- Embeds `ws.readyState === WebSocket.OPEN` for the socket `s`. -/
def sockOpen (closedSocks : List Nat) (s : Nat) : Bool :=
  if s ∈ closedSocks then false else true

/-- Embedding of the `ws.on('message', ...)` switch in registerRoutes
(src/server/routes.ts lines 22-129).  Returns the new state together with the
list of frames sent, as (socket, frame) pairs. -/
def relayHandleMessage (st : RelayState) (sock : Nat) (now : Nat) (msg : ClientMsg) :
    RelayState × List (Nat × ServerMsg) :=
  match msg with
  | .register peerId displayName =>
      ({ st with
          cur := mset st.cur sock peerId,
          peers := mset st.peers peerId ⟨peerId, sock, displayName⟩ },
        [(sock, ServerMsg.registered peerId)])
  | .signal target sender sig =>
      match mget st.peers target with
      | some t =>
          if sockOpen st.closedSocks t.sock then
            (st, [(t.sock, ServerMsg.signal sender sig)])
          else
            (st, [(sock, ServerMsg.error "Target peer not available")])
      | none => (st, [(sock, ServerMsg.error "Target peer not available")])
  | .offer target sender offerSdp callType =>
      match mget st.peers target with
      | some t =>
          if sockOpen st.closedSocks t.sock then
            (st, [(t.sock, ServerMsg.offer sender offerSdp callType)])
          else (st, [])
      | none => (st, [])
  | .answer target sender answerSdp =>
      match mget st.peers target with
      | some t =>
          if sockOpen st.closedSocks t.sock then
            (st, [(t.sock, ServerMsg.answer sender answerSdp)])
          else (st, [])
      | none => (st, [])
  | .iceCandidate target sender candidate =>
      match mget st.peers target with
      | some t =>
          if sockOpen st.closedSocks t.sock then
            (st, [(t.sock, ServerMsg.iceCandidate sender candidate)])
          else (st, [])
      | none => (st, [])
  | .statusUpdate status =>
      let cp := mget st.cur sock
      (st,
        (st.peers.filter
            (fun kv => (if some kv.1 = cp then false else true)
              && sockOpen st.closedSocks kv.2.sock)).map
          (fun kv => (kv.2.sock, ServerMsg.peerStatus cp status now)))
  | .ping => (st, [(sock, ServerMsg.pong)])

/-- Embedding of the `ws.on('close', ...)` handler in registerRoutes
(src/server/routes.ts lines 131-150).  The closing socket is marked closed,
then, when `currentPeerId` is truthy, the registry entry for that id is
deleted (regardless of which socket currently owns the binding) and the
offline presence event is broadcast to the remaining open registered
sockets. -/
def relayHandleClose (st : RelayState) (sock : Nat) (now : Nat) :
    RelayState × List (Nat × ServerMsg) :=
  let closedSocks2 := sock :: st.closedSocks
  match mget st.cur sock with
  | some cp =>
      if cp = "" then ({ st with closedSocks := closedSocks2 }, [])
      else
        let peers2 := mdelete st.peers cp
        ({ st with peers := peers2, closedSocks := closedSocks2 },
          (peers2.filter (fun kv => sockOpen closedSocks2 kv.2.sock)).map
            (fun kv => (kv.2.sock, ServerMsg.peerStatus (some cp) "offline" now)))
  | none => ({ st with closedSocks := closedSocks2 }, [])

/-- Events arriving at the relay: a parsed client frame on a socket, or the
close of a socket. -/
inductive RelayEvent where
  | message (sock : Nat) (msg : ClientMsg)
  | closeEvent (sock : Nat)

/-- Runs a list of relay events, accumulating all frames sent. -/
def relayRun (st : RelayState) (now : Nat) : List RelayEvent → RelayState × List (Nat × ServerMsg)
  | [] => (st, [])
  | e :: rest =>
      let r := match e with
        | .message sock m => relayHandleMessage st sock now m
        | .closeEvent sock => relayHandleClose st sock now
      let r2 := relayRun r.1 now rest
      (r2.1, r.2 ++ r2.2)

/-!
WebRTCManager model (src/client/src/lib, class WebRTCManager).
-/

/-- A PeerJS `DataConnection` as seen by `sendMessage`: a channel id and the
`open` flag. -/
structure DConn where
  chId : Nat
  connOpen : Bool
deriving DecidableEq

/-- Embedding of `WebRTCManager.sendMessage` (lines 364-388).  The boolean
argument `sendFails` tells whether the underlying `conn.send` would throw.
Returns the boolean result together with the updated `connections` map; the
source catches the exception, so the function is total and never throws. -/
def sendMessage (m : List (String × DConn)) (pid : String) (sendFails : Bool) :
    Bool × List (String × DConn) :=
  match mget m pid with
  | some c =>
      if c.connOpen then
        if sendFails then (false, mdelete m pid) else (true, m)
      else (false, mdelete m pid)
  | none => (false, m)

/-- Result of a `connectToPeer` call: the promise resolves immediately, stays
pending on the new channel's open/error events, or rejects because PeerJS is
not initialized. -/
inductive ConnectOutcome where
  | immediate
  | pending
  | rejected
deriving DecidableEq

/-- Embedding of `WebRTCManager.setupConnection` (lines 326-346): wires the
data/close/error handlers and stores the connection only if the peer id has
no entry yet. -/
def setupConnection (m : List (String × Nat)) (pid : String) (c : Nat) :
    List (String × Nat) :=
  if (mget m pid).isSome then m else mset m pid c

/-- Embedding of `WebRTCManager.connectToPeer` (lines 272-324).  Connections
are channel ids (`fresh` is the id `peer.connect` would allocate); `hasPeer`
models `this.peer !== null`.  Returns the new `connections` map, whether a
new channel was created, and the promise outcome. -/
def connectToPeer (m : List (String × Nat)) (hasPeer : Bool) (fresh : Nat) (pid : String) :
    List (String × Nat) × Bool × ConnectOutcome :=
  if (mget m pid).isSome then (m, false, ConnectOutcome.immediate)
  else if !hasPeer then (m, false, ConnectOutcome.rejected)
  else (mset (setupConnection m pid fresh) pid fresh, true, ConnectOutcome.pending)

/-- Reconnection state of the manager: the `reconnectAttempts` counter
(`maxReconnectAttempts = 5` and `reconnectDelay = 1000` are inlined
constants of the class). -/
structure WMState where
  reconnectAttempts : Nat
deriving DecidableEq

/-- Embedding of `WebRTCManager.attemptReconnect` (lines 160-168): when fewer
than 5 attempts have been made, increments the counter and schedules a
reconnect after `reconnectDelay * reconnectAttempts` ms (the post-increment
value); otherwise does nothing.  Returns the new state and the scheduled
delay, if any. -/
def attemptReconnect (s : WMState) : WMState × Option Nat :=
  if s.reconnectAttempts < 5 then
    ({ reconnectAttempts := s.reconnectAttempts + 1 },
      some (1000 * (s.reconnectAttempts + 1)))
  else (s, none)

/-- Delays scheduled by a cascade of `m` consecutive `attemptReconnect` calls
(each failed reconnect fires the next one through the socket close event). -/
def reconnectDelays (s : WMState) : Nat → List Nat
  | 0 => []
  | Nat.succ k =>
      let r := attemptReconnect s
      match r.2 with
      | some dly => dly :: reconnectDelays r.1 k
      | none => reconnectDelays r.1 k

/-- Embedding of `WebRTCManager.handlePeerData` (lines 352-362): looks up the
per-peer handler registered via `onMessage` and invokes it on the parsed
message; nothing else is invoked.  Handlers are opaque ids; the result is the
list of (handler, message) invocations performed.  The class maintains no
list of global handlers, and has no `onGlobalMessage` method. -/
def handlePeerData {α : Type} (handlers : List (String × Nat)) (peerId : String) (msg : α) :
    List (Nat × α) :=
  match mget handlers peerId with
  | some h => [(h, msg)]
  | none => []

/-!
Contact handshake model: the `contact-info` branch of the global message
callback defined inside `initializePeerConnection`
(src/client/src/lib/peer-connection-context.tsx lines 37-87).
-/

/-- Payload of a `contact-info` envelope (`message.data`).  `peerId` and
`displayName` are `Option`s because the fields may be absent. -/
structure ContactData where
  peerId : Option String
  displayName : Option String
deriving DecidableEq

/-- Envelope shape as inspected by the handshake handler. -/
structure CEnvelope where
  type : String
  data : ContactData
deriving DecidableEq

/-- Contact record as persisted by the handshake (the fields relevant to the
handler; `lastSeen`/`addedAt`/`unreadCount` are timestamps and counters set
from the clock). -/
structure Contact where
  id : String
  peerId : String
  displayName : String
  status : String
deriving DecidableEq

/-- Observable effects of one invocation of the handshake handler. -/
structure HandshakeResult where
  created : Option Contact
  notified : Bool
  observersInvoked : Bool
deriving DecidableEq

/-- JavaScript truthiness test `message.data.peerId && message.data.peerId !== peerId`:
an absent or empty-string `data.peerId` is falsy, so the mismatch rejection
only fires for a present, non-empty, differing value. -/
def truthyMismatch (dp : Option String) (remoteId : String) : Bool :=
  match dp with
  | some p => (if p = "" then false else true) && (if p = remoteId then false else true)
  | none => false

/-- Executable embedding of JavaScript `String.prototype.trim`: strips
leading and trailing whitespace. -/
def jsTrim (s : String) : String :=
  ⟨((s.data.dropWhile Char.isWhitespace).reverse.dropWhile Char.isWhitespace).reverse⟩

/-- JavaScript test `!displayName || typeof displayName !== 'string' || displayName.trim().length === 0`. -/
def invalidDisplayName (dn : Option String) : Bool :=
  match dn with
  | none => true
  | some s => (if s = "" then true else false) || (if jsTrim s = "" then true else false)

/-- Embedding of the `contact-info` global handler registered by
`initializePeerConnection`: validates self-addition, peer-id spoofing and the
display name, then auto-adds the contact when none exists for the actual
remote peer id.  `remoteId` is the actual remote id of the channel the
envelope arrived on, `freshId` the nanoid the new contact would receive. -/
def handleGlobalContactInfo (localId remoteId : String) (msg : CEnvelope)
    (contacts : List Contact) (freshId : String) : HandshakeResult :=
  if msg.type = "contact-info" then
    if remoteId = localId then ⟨none, false, false⟩
    else if truthyMismatch msg.data.peerId remoteId then ⟨none, false, false⟩
    else if invalidDisplayName msg.data.displayName then ⟨none, false, false⟩
    else
      match contacts.find? (fun c => c.peerId = remoteId) with
      | some _ => ⟨none, false, false⟩
      | none =>
          ⟨some ⟨freshId, remoteId, jsTrim ((msg.data.displayName).getD ""), "online"⟩,
            true, true⟩
  else ⟨none, false, false⟩

/-!
File transfer model: the `file` branch of the ChatWindow `onMessage` handler
(receive path) and `handleFileChange` (send path), in the ChatWindow
component of src/client/src/components.
-/

/-- Metadata carried by the first `file` envelope (`webrtcMessage.data` when
`data.fileId` is absent). -/
structure FileMeta where
  name : String
  size : Nat
  mimeType : String
  chunksDeclared : Nat
  preview : Option String
deriving DecidableEq

/-- Payload of a `file` envelope.  The source distinguishes the two shapes by
the presence of `data.fileId`: absent means metadata, present means chunk. -/
inductive FileData where
  | metadata (meta : FileMeta)
  | chunk (fileId : String) (chunkIndex : Nat) (chunkData : List Nat)
deriving DecidableEq

/-- Receiver-side session (`fileChunksRef` entry):
`{ meta, chunks: (Uint8Array | null)[], receivedCount }`. -/
structure FileTransfer where
  meta : FileMeta
  chunks : List (Option (List Nat))
  receivedCount : Nat
deriving DecidableEq

/-- A fully reassembled file as handed to the chat layer. -/
structure ReceivedFile where
  fileId : String
  content : List Nat
  meta : FileMeta
deriving DecidableEq

/-- Embedding of the `file` branch of the ChatWindow `onMessage` handler.
For a chunk: discard when no session exists; store the bytes and increment
`receivedCount` only when the slot is still `null` (an out-of-range index
reads `undefined`, which also fails the `=== null` test); when
`receivedCount` reaches `chunks.length`, re-check for missing slots, then
concatenate the slots in index order, emit the file and destroy the session.
For metadata: allocate a fresh session keyed by the envelope's `messageId`
with `data.chunks` null slots. -/
def handleFileMessage (st : List (String × FileTransfer)) (messageId : String)
    (d : FileData) : List (String × FileTransfer) × Option ReceivedFile :=
  match d with
  | .chunk fileId chunkIndex chunkData =>
      match mget st fileId with
      | none => (st, none)
      | some ft =>
          let ft1 :=
            if ft.chunks[chunkIndex]? = some none then
              { ft with
                  chunks := ft.chunks.set chunkIndex (some chunkData),
                  receivedCount := ft.receivedCount + 1 }
            else ft
          if ft1.receivedCount = ft1.chunks.length then
            if ft1.chunks.any (fun c => c = none) then (mdelete st fileId, none)
            else
              (mdelete st fileId,
                some ⟨fileId, (ft1.chunks.map (fun c => c.getD [])).flatten, ft1.meta⟩)
          else (mset st fileId ft1, none)
  | .metadata meta =>
      (mset st messageId ⟨meta, List.replicate meta.chunksDeclared none, 0⟩, none)

/-- Runs a list of `file` envelopes (messageId, data) through
`handleFileMessage`, accumulating the emitted files. -/
def runFile (st : List (String × FileTransfer)) :
    List (String × FileData) → List (String × FileTransfer) × List ReceivedFile
  | [] => (st, [])
  | (mid, d) :: rest =>
      let r := handleFileMessage st mid d
      let r2 := runFile r.1 rest
      (r2.1, r.2.toList ++ r2.2)

/-- Chunk envelopes for the indices in `order`: index `i` carries payload
`d i` and references session `fid` (chunk envelopes get derived message ids,
which the receiver ignores). -/
def chunkMsgs (fid : String) (d : Nat → List Nat) (order : List Nat) :
    List (String × FileData) :=
  order.map (fun i => ("chunkmsg", FileData.chunk fid i (d i)))

/-- Session map right after the metadata envelope for `fid` was handled on an
empty map. -/
def fileSessionInit (fid : String) (meta : FileMeta) : List (String × FileTransfer) :=
  (handleFileMessage [] fid (FileData.metadata meta)).1

/-- The `receivedCount` of the session for `fid`, 0 when no session exists. -/
def fileFilledCount (st : List (String × FileTransfer)) (fid : String) : Nat :=
  match mget st fid with
  | some ft => ft.receivedCount
  | none => 0

/-- Slice `arrayBuffer.slice(i * 16384, min((i + 1) * 16384, length))` of the
send path. -/
def sliceChunk (content : List Nat) (i : Nat) : List Nat :=
  (content.drop (i * 16384)).take 16384

/-- The chunk-sending loop of `handleFileChange`: sends chunk envelopes in
index order starting at `i` with `fuel` chunks remaining, aborting on the
first failed send.  `sendOk i` tells whether `sendMessage` succeeds for chunk
`i`.  Returns the chunk envelopes actually sent and the `allChunksSent`
flag. -/
def sendFileChunksGo (content : List Nat) (sendOk : Nat → Bool) (fid : String) :
    Nat → Nat → List FileData × Bool
  | _, 0 => ([], true)
  | i, Nat.succ fuel =>
      if sendOk i then
        let r := sendFileChunksGo content sendOk fid (i + 1) fuel
        (FileData.chunk fid i (sliceChunk content i) :: r.1, r.2)
      else ([], false)

/-- Statuses written to the message store and envelopes sent by one
`handleFileChange` run. -/
structure FileSendResult where
  savedStatuses : List String
  envelopes : List FileData
deriving DecidableEq

/-- Embedding of `ChatWindow.handleFileChange`: rejects files over
10 * 1024 * 1024 bytes before any record or envelope is produced; otherwise
saves a `sending` record, ensures the connection (`ensureOk`), sends the
metadata envelope (`metaOk` tells whether that send succeeds), then the
chunks, and saves the final `sent`/`failed` status. -/
def handleFileChange (fid name mime : String) (content : List Nat)
    (preview : Option String) (ensureOk metaOk : Bool) (sendOk : Nat → Bool) :
    FileSendResult :=
  if content.length > 10 * 1024 * 1024 then ⟨[], []⟩
  else
    let chunkTotal := (content.length + 16384 - 1) / 16384
    let meta : FileMeta := ⟨name, content.length, mime, chunkTotal, preview⟩
    if !ensureOk then ⟨["sending", "failed"], []⟩
    else if !metaOk then ⟨["sending", "failed"], [FileData.metadata meta]⟩
    else
      let r := sendFileChunksGo content sendOk fid 0 chunkTotal
      ⟨["sending", if r.2 then "sent" else "failed"], FileData.metadata meta :: r.1⟩

/-!
Specification-side descriptions of the mid-delivery reassembly state, used to
state and prove the reassembly invariant.
-/

/-- Expected slot array after the chunks with indices in `seen` have been
delivered (payload of index `i` is `d i`). -/
def midChunks (n : Nat) (d : Nat → List Nat) (seen : List Nat) :
    List (Option (List Nat)) :=
  (List.range n).map (fun i => if i ∈ seen then some (d i) else none)

/-- Number of filled slots after the chunks with indices in `seen` have been
delivered. -/
def midCount (n : Nat) (seen : List Nat) : Nat :=
  ((Finset.range n).filter (fun i => i ∈ seen)).card

/-- Expected session after the chunks with indices in `seen` have been
delivered. -/
def midFT (n : Nat) (d : Nat → List Nat) (meta : FileMeta) (seen : List Nat) :
    FileTransfer :=
  ⟨meta, midChunks n d seen, midCount n seen⟩

/-- Every chunk index below `n` has been delivered. -/
def fullSeen (n : Nat) (seen : List Nat) : Prop :=
  ∀ i < n, i ∈ seen

instance fullSeenDecidable (n : Nat) (seen : List Nat) : Decidable (fullSeen n seen) := by
  unfold fullSeen
  infer_instance

/-!
Lemmas about the association-list map operations.
-/

theorem mget_mset_self {κ α : Type} [DecidableEq κ] (m : List (κ × α)) (k : κ) (v : α) :
    mget (mset m k v) k = some v := by
  induction m with
  | nil => simp [mset, mget]
  | cons kv rest ih =>
      obtain ⟨k1, v1⟩ := kv
      by_cases h : k1 = k
      · subst h; simp [mset, mget]
      · simp [mset, mget, h, ih]

theorem mget_mset_ne {κ α : Type} [DecidableEq κ] (m : List (κ × α)) (k q : κ) (v : α)
    (h : k ≠ q) : mget (mset m k v) q = mget m q := by
  induction m with
  | nil => simp [mset, mget, h]
  | cons kv rest ih =>
      obtain ⟨k1, v1⟩ := kv
      by_cases h1 : k1 = k
      · subst h1; simp [mset, mget, h]
      · simp [mset, mget, h1, ih]

theorem mget_mdelete_self {κ α : Type} [DecidableEq κ] (m : List (κ × α)) (k : κ) :
    mget (mdelete m k) k = none := by
  induction m with
  | nil => simp [mdelete, mget]
  | cons kv rest ih =>
      obtain ⟨k1, v1⟩ := kv
      by_cases h1 : k1 = k
      · simp [mdelete, h1, ih]
      · simp [mdelete, mget, h1, ih]

theorem mget_mdelete_ne {κ α : Type} [DecidableEq κ] (m : List (κ × α)) (k q : κ)
    (h : k ≠ q) : mget (mdelete m k) q = mget m q := by
  induction m with
  | nil => simp [mdelete]
  | cons kv rest ih =>
      obtain ⟨k1, v1⟩ := kv
      by_cases h1 : k1 = k
      · subst h1
        have h2 : ¬ k1 = q := h
        simp [mdelete, mget, h2, ih]
      · by_cases h2 : k1 = q
        · subst h2; simp [mdelete, mget, h1]
        · simp [mdelete, mget, h1, h2, ih]

theorem mget_eq_none_iff {κ α : Type} [DecidableEq κ] (m : List (κ × α)) (k : κ) :
    mget m k = none ↔ k ∉ m.map Prod.fst := by
  induction m with
  | nil => simp [mget]
  | cons kv rest ih =>
      obtain ⟨k1, v1⟩ := kv
      by_cases h1 : k1 = k
      · subst h1; simp [mget]
      · simp [mget, h1, ih, Ne.symm h1]

theorem keys_mset {κ α : Type} [DecidableEq κ] (m : List (κ × α)) (k : κ) (v : α) :
    (mset m k v).map Prod.fst =
      if (mget m k).isSome then m.map Prod.fst else m.map Prod.fst ++ [k] := by
  induction m with
  | nil => simp [mset, mget]
  | cons kv rest ih =>
      obtain ⟨k1, v1⟩ := kv
      by_cases h1 : k1 = k
      · subst h1; simp [mset, mget]
      · simp only [mset, mget, if_neg h1, List.map_cons, ih]
        by_cases h2 : (mget rest k).isSome <;> simp [h2]

theorem keysNodup_mset {κ α : Type} [DecidableEq κ] (m : List (κ × α)) (k : κ) (v : α)
    (h : keysNodup m) : keysNodup (mset m k v) := by
  unfold keysNodup at h ⊢
  rw [keys_mset]
  by_cases h1 : (mget m k).isSome
  · simpa [h1]
  · have h2 : k ∉ m.map Prod.fst := by
      rw [← mget_eq_none_iff]
      exact Option.not_isSome_iff_eq_none.mp h1
    simp [h1, List.nodup_append, h, h2]

/-!
Claim theorems.
-/

/-- C2 (amended): for a target peer that is not registered or whose socket is
not open, only the `signal` kind replies to the sender with the error
"Target peer not available"; `offer`, `answer` and `ice-candidate` frames are
silently dropped (no reply at all); in all four cases the relay state is
unchanged and nothing is forwarded or queued. -/
theorem relay_unavailable_target_behavior (st : RelayState) (sock now : Nat)
    (target sender sig offerSdp callType answerSdp candidate : String)
    (h : mget st.peers target = none ∨
      ∃ t, mget st.peers target = some t ∧ sockOpen st.closedSocks t.sock = false) :
    relayHandleMessage st sock now (ClientMsg.signal target sender sig)
        = (st, [(sock, ServerMsg.error "Target peer not available")])
    ∧ relayHandleMessage st sock now (ClientMsg.offer target sender offerSdp callType)
        = (st, [])
    ∧ relayHandleMessage st sock now (ClientMsg.answer target sender answerSdp)
        = (st, [])
    ∧ relayHandleMessage st sock now (ClientMsg.iceCandidate target sender candidate)
        = (st, []) := by
  rcases h with h | ⟨t, ht, hopen⟩
  · simp [relayHandleMessage, h]
  · simp [relayHandleMessage, ht, hopen]

/-- C2 witness: concrete unavailable target on the empty relay state. -/
theorem relay_unavailable_target_behavior_witness :
    relayHandleMessage ⟨[], [], []⟩ 2 5 (ClientMsg.signal "bob" "alice" "s")
        = (⟨[], [], []⟩, [(2, ServerMsg.error "Target peer not available")])
    ∧ relayHandleMessage ⟨[], [], []⟩ 2 5 (ClientMsg.offer "bob" "alice" "o" "audio")
        = (⟨[], [], []⟩, [])
    ∧ relayHandleMessage ⟨[], [], []⟩ 2 5 (ClientMsg.answer "bob" "alice" "a")
        = (⟨[], [], []⟩, [])
    ∧ relayHandleMessage ⟨[], [], []⟩ 2 5 (ClientMsg.iceCandidate "bob" "alice" "c")
        = (⟨[], [], []⟩, []) :=
  relay_unavailable_target_behavior ⟨[], [], []⟩ 2 5 "bob" "alice" "s" "o" "audio" "a" "c"
    (Or.inl rfl)

/-- C2 counterexample: an `offer` (and likewise `answer` and `ice-candidate`)
to an unregistered target produces no frames at all — in particular no
"target peer not available" error reply to the sender, contrary to the claim
that all four forwarding kinds reply with an error. -/
theorem relay_offer_unavailable_no_error_reply :
    (relayHandleMessage ⟨[], [], []⟩ 1 0 (ClientMsg.offer "bob" "alice" "sdp" "audio")).2 = []
    ∧ (relayHandleMessage ⟨[], [], []⟩ 1 0 (ClientMsg.answer "bob" "alice" "sdp")).2 = []
    ∧ (relayHandleMessage ⟨[], [], []⟩ 1 0 (ClientMsg.iceCandidate "bob" "alice" "cand")).2 = [] :=
  ⟨rfl, rfl, rfl⟩

/-- C4: the connection map holds at most one record per peer id, and
`connectToPeer` is idempotent: a call for a peer id that already has an entry
returns immediately with the map unchanged and no new channel created, so a
repeated call for the same id never produces a duplicate record. -/
theorem connectToPeer_idempotent :
    (∀ (m : List (String × Nat)) (hasPeer : Bool) (fresh : Nat) (pid : String),
        (mget m pid).isSome →
        connectToPeer m hasPeer fresh pid = (m, false, ConnectOutcome.immediate))
    ∧ (∀ (m : List (String × Nat)) (hasPeer : Bool) (fresh : Nat) (pid : String),
        keysNodup m → keysNodup (connectToPeer m hasPeer fresh pid).1
          ∧ ((connectToPeer m hasPeer fresh pid).1.map Prod.fst).count pid ≤ 1)
    ∧ (∀ (m : List (String × Nat)) (fresh fresh2 : Nat) (hasPeer2 : Bool) (pid : String),
        mget m pid = none →
        connectToPeer (connectToPeer m true fresh pid).1 hasPeer2 fresh2 pid
          = ((connectToPeer m true fresh pid).1, false, ConnectOutcome.immediate)) := by
  refine ⟨?_, ?_, ?_⟩
  · intro m hasPeer fresh pid h
    simp [connectToPeer, h]
  · intro m hasPeer fresh pid hnd
    by_cases h1 : (mget m pid).isSome
    · refine ⟨by simpa [connectToPeer, h1] using hnd, ?_⟩
      simp only [connectToPeer, h1, if_true]
      exact List.nodup_iff_count_le_one.mp hnd pid
    · cases hasPeer with
      | false =>
          refine ⟨by simpa [connectToPeer, h1] using hnd, ?_⟩
          simp only [connectToPeer, h1, if_false, Bool.not_false, if_true]
          exact List.nodup_iff_count_le_one.mp hnd pid
      | true =>
          have hnd2 : keysNodup (mset (setupConnection m pid fresh) pid fresh) :=
            keysNodup_mset _ _ _ (by
              unfold setupConnection
              rw [if_neg h1]
              exact keysNodup_mset _ _ _ hnd)
          refine ⟨by simpa [connectToPeer, h1] using hnd2, ?_⟩
          simp only [connectToPeer, h1, if_false, Bool.not_true]
          exact List.nodup_iff_count_le_one.mp hnd2 pid
  · intro m fresh fresh2 hasPeer2 pid h
    have h1 : (mget m pid).isSome = false := by simp [h]
    set M1 := (connectToPeer m true fresh pid).1 with hM1
    have h3 : (mget M1 pid).isSome := by
      rw [hM1]
      simp [connectToPeer, h1, mget_mset_self]
    simp [connectToPeer, h3]

/-- C4 witness: a second connect for an id with an entry is a no-op, the
key invariant holds, and a connect-then-connect sequence creates no
duplicate. -/
theorem connectToPeer_idempotent_witness :
    connectToPeer [("a", 1)] true 2 "a" = ([("a", 1)], false, ConnectOutcome.immediate)
    ∧ keysNodup (connectToPeer [("a", 1)] true 2 "a").1
    ∧ connectToPeer (connectToPeer [] true 7 "b").1 true 8 "b"
        = ((connectToPeer [] true 7 "b").1, false, ConnectOutcome.immediate) :=
  ⟨connectToPeer_idempotent.1 [("a", 1)] true 2 "a" (by decide),
    (connectToPeer_idempotent.2.1 [("a", 1)] true 2 "a" (by decide)).1,
    connectToPeer_idempotent.2.2 [] 7 8 true "b" (by decide)⟩

/-- C6: `sendMessage` for a peer id with no map entry, or with an entry whose
connection is not open, returns `false`; the model is a total function (the
source wraps `conn.send` in try/catch), so no exception escapes, and no retry
or queueing happens. -/
theorem sendMessage_no_open_channel (m : List (String × DConn)) (pid : String)
    (sendFails : Bool)
    (h : mget m pid = none ∨ ∃ c, mget m pid = some c ∧ c.connOpen = false) :
    (sendMessage m pid sendFails).1 = false := by
  rcases h with h | ⟨c, hc, ho⟩
  · simp [sendMessage, h]
  · simp [sendMessage, hc, ho]

/-- C6 witness: no entry at all, and a stale (closed) entry. -/
theorem sendMessage_no_open_channel_witness :
    (sendMessage [] "x" false).1 = false
    ∧ (sendMessage [("y", ⟨1, false⟩)] "y" true).1 = false :=
  ⟨sendMessage_no_open_channel [] "x" false (Or.inl rfl),
    sendMessage_no_open_channel [("y", ⟨1, false⟩)] "y" true
      (Or.inr ⟨⟨1, false⟩, rfl, rfl⟩)⟩

/-- C10: when `sendMessage` returns `false` for a peer id that had a map
entry, it deletes exactly that entry (every other peer id reads the same);
when it returns `true` the map is unchanged. -/
theorem sendMessage_frame_effect (m : List (String × DConn)) (pid : String)
    (sendFails : Bool) :
    ((sendMessage m pid sendFails).1 = false → (mget m pid).isSome →
        (sendMessage m pid sendFails).2 = mdelete m pid
        ∧ mget (sendMessage m pid sendFails).2 pid = none
        ∧ ∀ q, q ≠ pid → mget (sendMessage m pid sendFails).2 q = mget m q)
    ∧ ((sendMessage m pid sendFails).1 = true → (sendMessage m pid sendFails).2 = m) := by
  constructor
  · intro hfalse hsome
    rcases hm : mget m pid with _ | c
    · rw [hm] at hsome; simp at hsome
    · have hdel : (sendMessage m pid sendFails).2 = mdelete m pid := by
        by_cases ho : c.connOpen
        · cases sendFails with
          | false => exfalso; simp [sendMessage, hm, ho] at hfalse
          | true => simp [sendMessage, hm, ho]
        · simp [sendMessage, hm, ho]
      refine ⟨hdel, ?_, ?_⟩
      · rw [hdel]; exact mget_mdelete_self m pid
      · intro q hq; rw [hdel]; exact mget_mdelete_ne m pid q (Ne.symm hq)
  · intro htrue
    rcases hm : mget m pid with _ | c
    · simp [sendMessage, hm] at htrue
    · by_cases ho : c.connOpen
      · cases sendFails with
        | false => simp [sendMessage, hm, ho]
        | true => simp [sendMessage, hm, ho] at htrue
      · simp [sendMessage, hm, ho] at htrue

/-- C10 witness: a failing send on a stale entry deletes only that entry; a
successful send leaves the map unchanged. -/
theorem sendMessage_frame_effect_witness :
    (sendMessage [("a", ⟨1, false⟩), ("b", ⟨2, true⟩)] "a" false).2
        = mdelete [("a", ⟨1, false⟩), ("b", ⟨2, true⟩)] "a"
    ∧ mget (sendMessage [("a", ⟨1, false⟩), ("b", ⟨2, true⟩)] "a" false).2 "b"
        = mget [("a", ⟨1, false⟩), ("b", ⟨2, true⟩)] "b"
    ∧ (sendMessage [("b", ⟨2, true⟩)] "b" false).2 = [("b", ⟨2, true⟩)] :=
  ⟨((sendMessage_frame_effect [("a", ⟨1, false⟩), ("b", ⟨2, true⟩)] "a" false).1
      (by decide) (by decide)).1,
    ((sendMessage_frame_effect [("a", ⟨1, false⟩), ("b", ⟨2, true⟩)] "a" false).1
      (by decide) (by decide)).2.2 "b" (by decide),
    (sendMessage_frame_effect [("b", ⟨2, true⟩)] "b" false).2 (by decide)⟩

theorem reconnectDelays_formula (a m : Nat) :
    reconnectDelays ⟨a⟩ m
      = (List.range (min m (5 - a))).map (fun k => 1000 * (a + k + 1)) := by
  induction m generalizing a with
  | zero => simp [reconnectDelays]
  | succ k ih =>
      by_cases ha : a < 5
      · have hmin : min (k + 1) (5 - a) = (min k (5 - (a + 1))) + 1 := by omega
        simp only [reconnectDelays, attemptReconnect, if_pos ha]
        rw [ih (a + 1), hmin, List.range_succ_eq_map]
        simp only [List.map_cons, List.map_map]
        refine congrArg₂ _ (by omega) ?_
        refine List.map_congr_left ?_
        intro x _
        simp only [Function.comp]
        omega
      · have hz : 5 - a = 0 := by omega
        simp only [reconnectDelays, attemptReconnect, if_neg ha]
        rw [ih a]
        simp [hz]

/-- C7: starting from a fresh counter, a cascade of reconnect attempts
schedules at most 5 of them, the k-th scheduled delay is `k * 1000` ms
(linear growth), and once the counter has reached the maximum,
`attemptReconnect` never schedules anything again and leaves the state
unchanged. -/
theorem attemptReconnect_policy :
    (∀ m : Nat, reconnectDelays ⟨0⟩ m
        = (List.range (min m 5)).map (fun k => 1000 * (k + 1)))
    ∧ (∀ s : WMState, 5 ≤ s.reconnectAttempts → attemptReconnect s = (s, none)) := by
  constructor
  · intro m
    rw [reconnectDelays_formula 0 m]
    simp
  · intro s hs
    simp [attemptReconnect, Nat.not_lt.mpr hs]

/-- C7 witness: seven cascaded close events schedule exactly the five delays
1000..5000 ms, and a sixth attempt is never scheduled. -/
theorem attemptReconnect_policy_witness :
    reconnectDelays ⟨0⟩ 7 = [1000, 2000, 3000, 4000, 5000]
    ∧ attemptReconnect ⟨5⟩ = (⟨5⟩, none) :=
  ⟨(attemptReconnect_policy.1 7).trans (by rfl),
    attemptReconnect_policy.2 ⟨5⟩ (by decide)⟩

/-- C3 (code evidence): `handlePeerData` dispatches an inbound envelope only
to the per-peer handler registered for the sending peer id; when no per-peer
handler exists for that peer — here a `contact-info` envelope from "p1" with
an empty handler map, and with a handler registered only for "p2" — no
handler whatsoever is invoked.  The manager keeps no list of global handlers
(and has no `onGlobalMessage` method, although
peer-connection-context.tsx line 37 calls one). -/
theorem handlePeerData_no_global_handlers :
    handlePeerData ([] : List (String × Nat)) "p1"
        (CEnvelope.mk "contact-info" ⟨some "p1", some "Alice"⟩) = []
    ∧ handlePeerData [("p2", 7)] "p1"
        (CEnvelope.mk "contact-info" ⟨some "p1", some "Alice"⟩) = [] :=
  ⟨rfl, rfl⟩

/-- C5 (amended): a `contact-info` envelope whose `data.peerId` is present,
non-empty and different from the actual remote id of the channel is rejected:
no contact is created, no notification fires, no contacts-changed observer is
invoked.  (A present-but-empty `data.peerId` is falsy in JavaScript and does
not trigger this rejection.) -/
theorem contactInfo_nonempty_peerId_mismatch_rejected
    (localId remoteId : String) (msg : CEnvelope) (contacts : List Contact)
    (freshId : String) (p : String) (hp : msg.data.peerId = some p)
    (hne : p ≠ "") (hmm : p ≠ remoteId) :
    handleGlobalContactInfo localId remoteId msg contacts freshId
      = ⟨none, false, false⟩ := by
  have ht : truthyMismatch msg.data.peerId remoteId = true := by
    rw [hp]; simp [truthyMismatch, hne, hmm]
  unfold handleGlobalContactInfo
  by_cases h1 : msg.type = "contact-info"
  · by_cases h2 : remoteId = localId
    · simp [h1, h2]
    · simp [h1, h2, ht]
  · simp [h1]

/-- C5 witness: a spoofed non-empty `data.peerId` "X" on a channel whose
remote id is "Y" is rejected with no effects. -/
theorem contactInfo_nonempty_peerId_mismatch_rejected_witness :
    handleGlobalContactInfo "L" "Y"
        ⟨"contact-info", ⟨some "X", some "Bob"⟩⟩ [] "c1" = ⟨none, false, false⟩ :=
  contactInfo_nonempty_peerId_mismatch_rejected "L" "Y"
    ⟨"contact-info", ⟨some "X", some "Bob"⟩⟩ [] "c1" "X" rfl (by decide) (by decide)

/-- C5 counterexample: a `contact-info` envelope with a present-but-empty
`data.peerId` that differs from the remote id "Y" is accepted — a contact is
created, the notification fires and the observers run — refuting the claim
for "present and differing" `data.peerId` values. -/
theorem contactInfo_empty_peerId_accepted :
    (ContactData.mk (some "") (some "Bob")).peerId = some ""
    ∧ ("" : String) ≠ "Y"
    ∧ (handleGlobalContactInfo "L" "Y"
        ⟨"contact-info", ⟨some "", some "Bob"⟩⟩ [] "c1").created
          = some ⟨"c1", "Y", "Bob", "online"⟩
    ∧ (handleGlobalContactInfo "L" "Y"
        ⟨"contact-info", ⟨some "", some "Bob"⟩⟩ [] "c1").notified = true
    ∧ (handleGlobalContactInfo "L" "Y"
        ⟨"contact-info", ⟨some "", some "Bob"⟩⟩ [] "c1").observersInvoked = true := by
  refine ⟨rfl, by decide, ?_, ?_, ?_⟩ <;> decide

/-- C9: `handleFileChange` rejects any file strictly larger than
10 * 1024 * 1024 bytes before doing anything: no chat-message record is
saved and no metadata or chunk envelope is sent. -/
theorem handleFileChange_rejects_large (fid name mime : String) (content : List Nat)
    (preview : Option String) (ensureOk metaOk : Bool) (sendOk : Nat → Bool)
    (h : content.length > 10 * 1024 * 1024) :
    handleFileChange fid name mime content preview ensureOk metaOk sendOk = ⟨[], []⟩ := by
  unfold handleFileChange
  rw [if_pos h]

/-- C9 witness: a file of 10 MiB + 1 byte produces no record and no
envelope. -/
theorem handleFileChange_rejects_large_witness :
    handleFileChange "f" "big.bin" "application/octet-stream"
      (List.replicate 10485761 0) none true true (fun _ => true) = ⟨[], []⟩ :=
  handleFileChange_rejects_large "f" "big.bin" "application/octet-stream"
    (List.replicate 10485761 0) none true true (fun _ => true)
    (by rw [List.length_replicate]; decide)

/-- C8: after peer `p` registers on socket `s1`, peer `q` registers on
socket `s3`, and `p` re-registers on socket `s2` (so `s2` owns the live
binding), a close of the stale socket `s1` deletes the registry entry for
`p` — removing the live `s2` binding — and broadcasts the offline
peer-status event for `p` to the remaining registered socket `s3`. -/
theorem relay_stale_close_deletes_live_binding (p q n1 n2 : String) (s1 s2 s3 now : Nat)
    (hpq : p ≠ q) (hp : p ≠ "") (h12 : s1 ≠ s2) (h13 : s1 ≠ s3) (h23 : s2 ≠ s3) :
    mget (relayRun ⟨[], [], []⟩ now
        [RelayEvent.message s1 (ClientMsg.register p n1),
          RelayEvent.message s3 (ClientMsg.register q n2),
          RelayEvent.message s2 (ClientMsg.register p n1)]).1.peers p
      = some ⟨p, s2, n1⟩
    ∧ mget (relayHandleClose (relayRun ⟨[], [], []⟩ now
        [RelayEvent.message s1 (ClientMsg.register p n1),
          RelayEvent.message s3 (ClientMsg.register q n2),
          RelayEvent.message s2 (ClientMsg.register p n1)]).1 s1 now).1.peers p = none
    ∧ mget (relayHandleClose (relayRun ⟨[], [], []⟩ now
        [RelayEvent.message s1 (ClientMsg.register p n1),
          RelayEvent.message s3 (ClientMsg.register q n2),
          RelayEvent.message s2 (ClientMsg.register p n1)]).1 s1 now).1.peers q
      = some ⟨q, s3, n2⟩
    ∧ (relayHandleClose (relayRun ⟨[], [], []⟩ now
        [RelayEvent.message s1 (ClientMsg.register p n1),
          RelayEvent.message s3 (ClientMsg.register q n2),
          RelayEvent.message s2 (ClientMsg.register p n1)]).1 s1 now).2
      = [(s3, ServerMsg.peerStatus (some p) "offline" now)] := by
  have hqp : q ≠ p := Ne.symm hpq
  have h21 : s2 ≠ s1 := Ne.symm h12
  have h31 : s3 ≠ s1 := Ne.symm h13
  have h32 : s3 ≠ s2 := Ne.symm h23
  simp [relayRun, relayHandleMessage, relayHandleClose, mget, mset, mdelete, sockOpen,
    hpq, hqp, hp, h12, h21, h13, h31, h23, h32]

/-- C8 witness: the scenario at concrete ids and sockets. -/
theorem relay_stale_close_deletes_live_binding_witness :
    mget (relayHandleClose (relayRun ⟨[], [], []⟩ 9
        [RelayEvent.message 1 (ClientMsg.register "p" "P"),
          RelayEvent.message 3 (ClientMsg.register "q" "Q"),
          RelayEvent.message 2 (ClientMsg.register "p" "P")]).1 1 9).1.peers "p" = none
    ∧ (relayHandleClose (relayRun ⟨[], [], []⟩ 9
        [RelayEvent.message 1 (ClientMsg.register "p" "P"),
          RelayEvent.message 3 (ClientMsg.register "q" "Q"),
          RelayEvent.message 2 (ClientMsg.register "p" "P")]).1 1 9).2
      = [(3, ServerMsg.peerStatus (some "p") "offline" 9)] :=
  ⟨(relay_stale_close_deletes_live_binding "p" "q" "P" "Q" 1 2 3 9
      (by decide) (by decide) (by decide) (by decide) (by decide)).2.1,
    (relay_stale_close_deletes_live_binding "p" "q" "P" "Q" 1 2 3 9
      (by decide) (by decide) (by decide) (by decide) (by decide)).2.2.2⟩

/-!
Reassembly invariant lemmas for C1.
-/

theorem midChunks_length (n : Nat) (d : Nat → List Nat) (seen : List Nat) :
    (midChunks n d seen).length = n := by
  simp [midChunks]

theorem midChunks_getElem? (n : Nat) (d : Nat → List Nat) (seen : List Nat) (j : Nat)
    (hj : j < n) :
    (midChunks n d seen)[j]? = some (if j ∈ seen then some (d j) else none) := by
  simp [midChunks, List.getElem?_map, List.getElem?_range hj]

theorem midChunks_congr (n : Nat) (d : Nat → List Nat) (l₁ l₂ : List Nat)
    (h : ∀ i, i ∈ l₁ ↔ i ∈ l₂) : midChunks n d l₁ = midChunks n d l₂ := by
  unfold midChunks
  refine List.map_congr_left ?_
  intro i _
  rw [if_congr (h i) rfl rfl]

theorem midCount_congr (n : Nat) (l₁ l₂ : List Nat)
    (h : ∀ i, i ∈ l₁ ↔ i ∈ l₂) : midCount n l₁ = midCount n l₂ := by
  unfold midCount
  congr 1
  refine Finset.filter_congr ?_
  intro i _
  simp [h i]

theorem midCount_le (n : Nat) (seen : List Nat) : midCount n seen ≤ n := by
  calc ((Finset.range n).filter (fun i => i ∈ seen)).card
      ≤ (Finset.range n).card := Finset.card_filter_le _ _
    _ = n := Finset.card_range n

theorem midCount_eq_iff (n : Nat) (seen : List Nat) :
    midCount n seen = n ↔ fullSeen n seen := by
  unfold midCount fullSeen
  constructor
  · intro h i hi
    have hsub : (Finset.range n).filter (fun i => i ∈ seen) ⊆ Finset.range n :=
      Finset.filter_subset _ _
    have heq : (Finset.range n).filter (fun i => i ∈ seen) = Finset.range n :=
      Finset.eq_of_subset_of_card_le hsub (by rw [h, Finset.card_range])
    have hmem : i ∈ (Finset.range n).filter (fun i => i ∈ seen) := by
      rw [heq]; exact Finset.mem_range.mpr hi
    exact (Finset.mem_filter.mp hmem).2
  · intro h
    have heq : (Finset.range n).filter (fun i => i ∈ seen) = Finset.range n :=
      Finset.filter_eq_self.mpr (fun i hi => h i (Finset.mem_range.mp hi))
    rw [heq, Finset.card_range]

theorem midChunks_set (n : Nat) (d : Nat → List Nat) (seen : List Nat) (j : Nat)
    (hj : j < n) (hmem : j ∉ seen) :
    (midChunks n d seen).set j (some (d j)) = midChunks n d (seen ++ [j]) := by
  refine List.ext_getElem? ?_
  intro i
  by_cases hi : i < n
  · by_cases hij : i = j
    · subst hij
      have hlen : i < (midChunks n d seen).length := by rw [midChunks_length]; exact hi
      rw [midChunks_getElem? n d (seen ++ [i]) i hi]
      simp [List.getElem?_set_self', midChunks_getElem? n d seen i hi]
    · rw [List.getElem?_set_ne (fun he => hij he.symm),
        midChunks_getElem? n d seen i hi, midChunks_getElem? n d (seen ++ [j]) i hi]
      have : i ∈ seen ++ [j] ↔ i ∈ seen := by simp [hij]
      rw [if_congr this rfl rfl]
  · have h1 : ((midChunks n d seen).set j (some (d j)))[i]? = none :=
      List.getElem?_eq_none (by simp [midChunks_length]; omega)
    have h2 : (midChunks n d (seen ++ [j]))[i]? = none :=
      List.getElem?_eq_none (by rw [midChunks_length]; omega)
    rw [h1, h2]

theorem midCount_append (n : Nat) (seen : List Nat) (j : Nat)
    (hj : j < n) (hmem : j ∉ seen) :
    midCount n (seen ++ [j]) = midCount n seen + 1 := by
  unfold midCount
  have hpred : ∀ i : Nat, (i ∈ seen ++ [j]) ↔ (i ∈ seen ∨ i = j) := by
    intro i; simp
  have h1 : (Finset.range n).filter (fun i => i ∈ seen ++ [j])
      = (Finset.range n).filter (fun i => i ∈ seen ∨ i = j) := by
    refine Finset.filter_congr ?_
    intro i _
    simp [hpred i]
  rw [h1, Finset.filter_or, Finset.filter_eq']
  rw [if_pos (Finset.mem_range.mpr hj)]
  have hnot : j ∉ (Finset.range n).filter (fun i => i ∈ seen) := by
    simp [hmem]
  rw [Finset.union_comm, ← Finset.insert_eq, Finset.card_insert_of_not_mem hnot]

theorem fullSeen_congr (n : Nat) (l₁ l₂ : List Nat)
    (h : ∀ i, i ∈ l₁ ↔ i ∈ l₂) : fullSeen n l₁ ↔ fullSeen n l₂ := by
  unfold fullSeen
  exact forall_congr' (fun i => imp_congr Iff.rfl (h i))

theorem fullSeen_mono (n : Nat) (l₁ l₂ : List Nat)
    (h : ∀ i, i ∈ l₁ → i ∈ l₂) (hf : fullSeen n l₁) : fullSeen n l₂ :=
  fun i hi => h i (hf i hi)

theorem midChunks_full_no_none (n : Nat) (d : Nat → List Nat) (seen : List Nat)
    (h : fullSeen n seen) :
    (midChunks n d seen).any (fun c => c = none) = false := by
  rw [List.any_eq_false]
  intro c hc
  simp only [midChunks, List.mem_map, List.mem_range] at hc
  obtain ⟨i, hi, hci⟩ := hc
  rw [if_pos (h i hi)] at hci
  simp [← hci]

theorem midChunks_full_flatten (n : Nat) (d : Nat → List Nat) (seen : List Nat)
    (h : fullSeen n seen) :
    ((midChunks n d seen).map (fun c => c.getD [])).flatten
      = ((List.range n).map d).flatten := by
  unfold midChunks
  rw [List.map_map]
  congr 1
  refine List.map_congr_left ?_
  intro i hi
  simp [h i (List.mem_range.mp hi)]

theorem midChunks_nil (n : Nat) (d : Nat → List Nat) :
    midChunks n d [] = List.replicate n none := by
  refine List.ext_getElem? ?_
  intro i
  by_cases hi : i < n
  · rw [midChunks_getElem? n d [] i hi]
    simp [List.getElem?_replicate, hi]
  · have h1 : (midChunks n d [])[i]? = none :=
      List.getElem?_eq_none (by rw [midChunks_length]; omega)
    have h2 : (List.replicate n (none : Option (List Nat)))[i]? = none :=
      List.getElem?_eq_none (by simp; omega)
    rw [h1, h2]

theorem midCount_nil (n : Nat) : midCount n [] = 0 := by
  simp [midCount]

theorem handleFileMessage_chunk_step (n : Nat) (d : Nat → List Nat) (meta : FileMeta)
    (fid mid : String) (j : Nat) (seen : List Nat)
    (hj : j < n) (hfull : ¬ fullSeen n seen) :
    handleFileMessage [(fid, midFT n d meta seen)] mid (FileData.chunk fid j (d j)) =
      if fullSeen n (seen ++ [j])
      then ([], some ⟨fid, ((List.range n).map d).flatten, meta⟩)
      else ([(fid, midFT n d meta (seen ++ [j]))], none) := by
  have hget : mget [(fid, midFT n d meta seen)] fid = some (midFT n d meta seen) := by
    simp [mget]
  have hcount : midCount n seen ≠ n := fun h => hfull ((midCount_eq_iff n seen).mp h)
  by_cases hmem : j ∈ seen
  · have hiff : ∀ i : Nat, i ∈ seen ++ [j] ↔ i ∈ seen := by
      intro i
      simp only [List.mem_append, List.mem_singleton]
      constructor
      · rintro (h | rfl)
        · exact h
        · exact hmem
      · exact Or.inl
    have hslot : (midFT n d meta seen).chunks[j]? = some (some (d j)) := by
      show (midChunks n d seen)[j]? = _
      rw [midChunks_getElem? n d seen j hj, if_pos hmem]
    have hfteq : midFT n d meta (seen ++ [j]) = midFT n d meta seen := by
      unfold midFT
      rw [midChunks_congr n d _ _ hiff, midCount_congr n _ _ hiff]
    have hfull2 : ¬ fullSeen n (seen ++ [j]) :=
      fun h => hfull ((fullSeen_congr n _ _ hiff).mp h)
    rw [if_neg hfull2, hfteq]
    have hlen : ¬ ((midFT n d meta seen).receivedCount
        = (midFT n d meta seen).chunks.length) := by
      show ¬ midCount n seen = (midChunks n d seen).length
      rw [midChunks_length]
      exact hcount
    have hne : ¬ ((some (some (d j)) : Option (Option (List Nat))) = some none) := by
      simp
    simp only [handleFileMessage, hget, hslot, if_neg hne]
    rw [if_neg hlen]
    simp [mset]
  · have hslot : (midFT n d meta seen).chunks[j]? = some none := by
      show (midChunks n d seen)[j]? = _
      rw [midChunks_getElem? n d seen j hj, if_neg hmem]
    have hset : (midChunks n d seen).set j (some (d j)) = midChunks n d (seen ++ [j]) :=
      midChunks_set n d seen j hj hmem
    have hcnt : midCount n (seen ++ [j]) = midCount n seen + 1 :=
      midCount_append n seen j hj hmem
    have hchunksEq : (midFT n d meta seen).chunks = midChunks n d seen := rfl
    have hcountEq : (midFT n d meta seen).receivedCount = midCount n seen := rfl
    have hmetaEq : (midFT n d meta seen).meta = meta := rfl
    have hslot2 : (midChunks n d seen)[j]? = some none := hslot
    simp only [handleFileMessage, hget, hchunksEq, hcountEq, hmetaEq, hslot2, if_true, hset]
    rw [← hcnt]
    by_cases hfull2 : fullSeen n (seen ++ [j])
    · rw [if_pos hfull2]
      have hc2 : midCount n (seen ++ [j]) = (midChunks n d (seen ++ [j])).length := by
        rw [midChunks_length]
        exact (midCount_eq_iff n (seen ++ [j])).mpr hfull2
      rw [if_pos hc2]
      rw [if_neg (by simp [midChunks_full_no_none n d (seen ++ [j]) hfull2])]
      simp [mdelete, midChunks_full_flatten n d (seen ++ [j]) hfull2]
    · rw [if_neg hfull2]
      have hc2 : ¬ (midCount n (seen ++ [j]) = (midChunks n d (seen ++ [j])).length) := by
        rw [midChunks_length]
        exact fun h => hfull2 ((midCount_eq_iff _ _).mp h)
      rw [if_neg hc2]
      simp [mset, midFT]

theorem runFile_cons (st : List (String × FileTransfer)) (mid : String) (dd : FileData)
    (rest : List (String × FileData)) :
    runFile st ((mid, dd) :: rest) =
      ((runFile (handleFileMessage st mid dd).1 rest).1,
        (handleFileMessage st mid dd).2.toList
          ++ (runFile (handleFileMessage st mid dd).1 rest).2) := rfl

theorem runFile_nil_state (fid : String) (d : Nat → List Nat) (order : List Nat) :
    runFile [] (chunkMsgs fid d order) = ([], []) := by
  induction order with
  | nil => simp [chunkMsgs, runFile]
  | cons j rest ih =>
      rw [show chunkMsgs fid d (j :: rest)
          = ("chunkmsg", FileData.chunk fid j (d j)) :: chunkMsgs fid d rest from rfl,
        runFile_cons,
        show handleFileMessage [] "chunkmsg" (FileData.chunk fid j (d j))
          = (([] : List (String × FileTransfer)), (none : Option ReceivedFile)) from rfl,
        ih]
      simp

theorem runFile_append (st : List (String × FileTransfer)) (xs ys : List (String × FileData)) :
    runFile st (xs ++ ys)
      = ((runFile (runFile st xs).1 ys).1,
          (runFile st xs).2 ++ (runFile (runFile st xs).1 ys).2) := by
  induction xs generalizing st with
  | nil => simp [runFile]
  | cons x rest ih =>
      obtain ⟨mid, dd⟩ := x
      rw [List.cons_append, runFile_cons, runFile_cons, ih]
      simp [List.append_assoc]

theorem runFile_chunks (n : Nat) (d : Nat → List Nat) (meta : FileMeta) (fid : String) :
    ∀ (order seen : List Nat), (∀ j ∈ order, j < n) → ¬ fullSeen n seen →
    runFile [(fid, midFT n d meta seen)] (chunkMsgs fid d order) =
      if fullSeen n (seen ++ order)
      then ([], [⟨fid, ((List.range n).map d).flatten, meta⟩])
      else ([(fid, midFT n d meta (seen ++ order))], []) := by
  intro order
  induction order with
  | nil =>
      intro seen _ hfull
      simp [chunkMsgs, runFile, if_neg hfull]
  | cons j rest ih =>
      intro seen hlt hfull
      have hj : j < n := hlt j (List.mem_cons_self j rest)
      have hltrest : ∀ i ∈ rest, i < n := fun i hi => hlt i (List.mem_cons_of_mem j hi)
      have hstep := handleFileMessage_chunk_step n d meta fid "chunkmsg" j seen hj hfull
      by_cases hfull2 : fullSeen n (seen ++ [j])
      · rw [if_pos hfull2] at hstep
        have hfull3 : fullSeen n (seen ++ j :: rest) := by
          refine fullSeen_mono n (seen ++ [j]) (seen ++ j :: rest) ?_ hfull2
          intro i hi
          rcases List.mem_append.mp hi with h | h
          · exact List.mem_append.mpr (Or.inl h)
          · simp only [List.mem_singleton] at h
            subst h
            exact List.mem_append.mpr (Or.inr (List.mem_cons_self i rest))
        rw [show chunkMsgs fid d (j :: rest)
            = ("chunkmsg", FileData.chunk fid j (d j)) :: chunkMsgs fid d rest from rfl,
          runFile_cons, hstep, runFile_nil_state, if_pos hfull3]
        simp
      · rw [if_neg hfull2] at hstep
        rw [show chunkMsgs fid d (j :: rest)
            = ("chunkmsg", FileData.chunk fid j (d j)) :: chunkMsgs fid d rest from rfl,
          runFile_cons, hstep, ih (seen ++ [j]) hltrest hfull2]
        have hassoc : (seen ++ [j]) ++ rest = seen ++ j :: rest := by simp
        rw [hassoc]
        by_cases hc : fullSeen n (seen ++ j :: rest)
        · simp [hc]
        · simp [hc]

/-- C1: for a session created from a metadata envelope declaring `n` chunks,
delivering chunk envelopes in any order that covers every index below `n`
(duplicates allowed, each index `i` carrying payload `d i`) (1) emits exactly
what in-order delivery emits, (2) for positive `n`, that emission is the
single file whose content is the concatenation of the slots in index order,
(3) the session's received-chunk count never exceeds `n` at any prefix of the
delivery, and (4) a duplicate chunk is a complete no-op on the session state
(it neither overwrites the stored bytes nor increments the count). -/
theorem file_reassembly_order_independent (fid : String) (meta : FileMeta) (n : Nat)
    (d : Nat → List Nat) (hmeta : meta.chunksDeclared = n) (order : List Nat)
    (hlt : ∀ j ∈ order, j < n) (hcov : ∀ i, i < n → i ∈ order) :
    (runFile (fileSessionInit fid meta) (chunkMsgs fid d order)).2
        = (runFile (fileSessionInit fid meta) (chunkMsgs fid d (List.range n))).2
    ∧ (0 < n → (runFile (fileSessionInit fid meta) (chunkMsgs fid d order)).2
        = [⟨fid, ((List.range n).map d).flatten, meta⟩])
    ∧ (∀ l₁ l₂, order = l₁ ++ l₂ →
        fileFilledCount (runFile (fileSessionInit fid meta) (chunkMsgs fid d l₁)).1 fid ≤ n)
    ∧ (∀ l₁ j l₂, order = l₁ ++ j :: l₂ → j ∈ l₁ →
        (runFile (fileSessionInit fid meta) (chunkMsgs fid d (l₁ ++ [j]))).1
          = (runFile (fileSessionInit fid meta) (chunkMsgs fid d l₁)).1) := by
  have hmid0 : midFT n d meta [] = ⟨meta, List.replicate n none, 0⟩ := by
    unfold midFT
    rw [midChunks_nil, midCount_nil]
  have hst0 : fileSessionInit fid meta = [(fid, midFT n d meta [])] := by
    simp [fileSessionInit, handleFileMessage, mset, hmid0, hmeta]
  rcases Nat.eq_zero_or_pos n with hz | hpos
  · subst hz
    have horder : order = [] := by
      cases order with
      | nil => rfl
      | cons a t => exact absurd (hlt a (List.mem_cons_self a t)) (by omega)
    subst horder
    refine ⟨by simp, by omega, ?_, ?_⟩
    · intro l₁ l₂ heq
      have hl₁ : l₁ = [] := (List.append_eq_nil.mp heq.symm).1
      subst hl₁
      rw [hst0]
      simp [chunkMsgs, runFile, fileFilledCount, mget, hmid0]
    · intro l₁ j l₂ heq _
      cases l₁ <;> simp at heq
  · have hfullnil : ¬ fullSeen n [] := fun h => absurd (h 0 hpos) (List.not_mem_nil 0)
    have hcovO : fullSeen n order := hcov
    have hcovR : fullSeen n (List.range n) := fun i hi => List.mem_range.mpr hi
    have hmain := runFile_chunks n d meta fid order [] hlt hfullnil
    rw [List.nil_append, if_pos hcovO] at hmain
    have hrange := runFile_chunks n d meta fid (List.range n) []
      (fun i hi => List.mem_range.mp hi) hfullnil
    rw [List.nil_append, if_pos hcovR] at hrange
    refine ⟨?_, ?_, ?_, ?_⟩
    · rw [hst0, hmain, hrange]
    · intro _
      rw [hst0, hmain]
    · intro l₁ l₂ heq
      have hlt1 : ∀ i ∈ l₁, i < n :=
        fun i hi => hlt i (heq ▸ List.mem_append.mpr (Or.inl hi))
      by_cases hf : fullSeen n l₁
      · have h := runFile_chunks n d meta fid l₁ [] hlt1 hfullnil
        rw [List.nil_append, if_pos hf] at h
        rw [hst0, h]
        simp [fileFilledCount, mget]
      · have h := runFile_chunks n d meta fid l₁ [] hlt1 hfullnil
        rw [List.nil_append, if_neg hf] at h
        rw [hst0, h]
        have hfc : fileFilledCount [(fid, midFT n d meta l₁)] fid = midCount n l₁ := by
          simp [fileFilledCount, mget, midFT]
        rw [hfc]
        exact midCount_le n l₁
    · intro l₁ j l₂ heq hjmem
      have hlt1 : ∀ i ∈ l₁, i < n :=
        fun i hi => hlt i (heq ▸ List.mem_append.mpr (Or.inl hi))
      have hj : j < n := hlt j (heq ▸ List.mem_append.mpr
        (Or.inr (List.mem_cons_self j l₂)))
      have hsplit : chunkMsgs fid d (l₁ ++ [j])
          = chunkMsgs fid d l₁ ++ [("chunkmsg", FileData.chunk fid j (d j))] := by
        simp [chunkMsgs]
      rw [hst0, hsplit, runFile_append]
      by_cases hf : fullSeen n l₁
      · have h := runFile_chunks n d meta fid l₁ [] hlt1 hfullnil
        rw [List.nil_append, if_pos hf] at h
        rw [h]
        simp [runFile, handleFileMessage, mget]
      · have h := runFile_chunks n d meta fid l₁ [] hlt1 hfullnil
        rw [List.nil_append, if_neg hf] at h
        rw [h]
        have hiff : ∀ i : Nat, i ∈ l₁ ++ [j] ↔ i ∈ l₁ := by
          intro i
          simp only [List.mem_append, List.mem_singleton]
          constructor
          · rintro (hx | rfl)
            · exact hx
            · exact hjmem
          · exact Or.inl
        have hfull2 : ¬ fullSeen n (l₁ ++ [j]) :=
          fun hx => hf ((fullSeen_congr n _ _ hiff).mp hx)
        have hstep := handleFileMessage_chunk_step n d meta fid "chunkmsg" j l₁ hj hf
        rw [if_neg hfull2] at hstep
        have hfteq : midFT n d meta (l₁ ++ [j]) = midFT n d meta l₁ := by
          unfold midFT
          rw [midChunks_congr n d _ _ hiff, midCount_congr n _ _ hiff]
        rw [show ([("chunkmsg", FileData.chunk fid j (d j))] : List (String × FileData))
            = ("chunkmsg", FileData.chunk fid j (d j)) :: [] from rfl, runFile_cons, hstep]
        simp [runFile, hfteq]

/-- C1 witness: two chunks delivered as `[1, 0, 1]` (out of order plus a
duplicate) reconstruct the same single file as in-order delivery. -/
theorem file_reassembly_order_independent_witness :
    (runFile (fileSessionInit "f1" ⟨"a", 3, "t", 2, none⟩)
        (chunkMsgs "f1" (fun i => [i, i]) [1, 0, 1])).2
      = [⟨"f1", ((List.range 2).map (fun i => [i, i])).flatten, ⟨"a", 3, "t", 2, none⟩⟩]
    ∧ (runFile (fileSessionInit "f1" ⟨"a", 3, "t", 2, none⟩)
        (chunkMsgs "f1" (fun i => [i, i]) [1, 0, 1])).2
      = (runFile (fileSessionInit "f1" ⟨"a", 3, "t", 2, none⟩)
          (chunkMsgs "f1" (fun i => [i, i]) (List.range 2))).2 :=
  ⟨(file_reassembly_order_independent "f1" ⟨"a", 3, "t", 2, none⟩ 2 (fun i => [i, i]) rfl
      [1, 0, 1] (by decide) (by decide)).2.1 (by decide),
    (file_reassembly_order_independent "f1" ⟨"a", 3, "t", 2, none⟩ 2 (fun i => [i, i]) rfl
      [1, 0, 1] (by decide) (by decide)).1⟩
